import Mathlib

/-!
# Verification of the pymed PubMed client core

Shallow embedding of the core of the `pymed` repository
(`pymed/utils.py` and `pymed/pymed.py`) together with proofs about it.

Modelling conventions:

* A Python `datetime.date` value is represented by its proleptic Gregorian
  day number (an `Int`; `toOrdinal` fixes the epoch).  Date subtraction
  `(a - b).days` is integer subtraction and `d - timedelta(days = i)` is
  `d - i`.
* A date string in the service's `Y/M/D` format is represented by the triple
  of integers it displays, type `DateStr := Int × Int × Int`.  `strftime`
  of a date is `civilFromDays`; the raw f-string of the one-day leaf bin in
  `make_date_bins` is built directly from calendar fields, exactly as in the
  source (including the field-arithmetic `end_date.day - 1`).
* `datetime.datetime.strptime(s, "%Y/%m/%d")` validates the fields and
  yields the corresponding date; it is modelled by `strptime`, which fails
  on invalid triples (such as a day field of `0`).
* Real time and HTTP are not involved; the remote service is an oracle
  `Service` mapping a request to either a response or a transport error,
  and `requests.get`/`raise_for_status` failures are the oracle's error
  case.
* The Python recursion in `recurse_bin_processing` is embedded with an
  explicit fuel parameter; exhausting the fuel gives the distinguished
  error `PyErr.fuelExhausted`, which the theorems show is unreachable for
  fuel at least the (bounded) recursion depth.
-/

/-! ## Calendar arithmetic

`G y` is the number of days in the first `y` March-based years of a
400-year era (`y ∈ [0, 399]`).  `toOrdinal` is the standard
days-from-civil conversion; `civilFromDays` is its inverse, computing the
year-of-era by bounded search (`findYoe`), which makes the round trip
provable.  These model the arithmetic of Python's `datetime.date`.
-/

deriving instance DecidableEq for Except

set_option maxRecDepth 8192

def G (y : Int) : Int := 365 * y + y / 4 - y / 100

def toOrdinal (y m d : Int) : Int :=
  let yAdj := if m ≤ 2 then y - 1 else y
  let era := yAdj / 400
  let yoe := yAdj - era * 400
  let mp := (m + 9) % 12
  let doy := (153 * mp + 2) / 5 + d - 1
  era * 146097 + G yoe + doy - 719468

/-- Largest `y ≤ n` with `G y ≤ doe` (and `0` if there is none). -/
def findYoe (doe : Int) : Nat → Int
  | 0 => 0
  | Nat.succ n => if G (Int.ofNat (n + 1)) ≤ doe then Int.ofNat (n + 1) else findYoe doe n

def civilFromDays (z : Int) : Int × Int × Int :=
  let zs := z + 719468
  let era := zs / 146097
  let doe := zs - era * 146097
  let yoe := findYoe doe 399
  let doy := doe - G yoe
  let mp := (5 * doy + 2) / 153
  let d := doy - (153 * mp + 2) / 5 + 1
  let m := if mp < 10 then mp + 3 else mp - 9
  let y := yoe + era * 400 + (if m ≤ 2 then 1 else 0)
  (y, m, d)

def dateYear (z : Int) : Int := (civilFromDays z).1
def dateMonth (z : Int) : Int := (civilFromDays z).2.1
def dateDay (z : Int) : Int := (civilFromDays z).2.2

/-- The `Y/M/D` text of a service date string, as the triple it displays. -/
abbrev DateStr : Type := Int × Int × Int

/-- The date denoted by a date string, reading the fields linearly. -/
def ordOf (s : DateStr) : Int := toOrdinal s.1 s.2.1 s.2.2

/-- `strftime(date, "%Y/%m/%d")`, as the displayed triple. -/
def serviceDateFormat (z : Int) : DateStr := civilFromDays z

def daysInMonth (y m : Int) : Int :=
  if m = 2 then
    if (y % 4 = 0 ∧ y % 100 ≠ 0) ∨ y % 400 = 0 then 29 else 28
  else if m = 4 ∨ m = 6 ∨ m = 9 ∨ m = 11 then 30
  else 31

def validDate (s : DateStr) : Prop :=
  1 ≤ s.2.1 ∧ s.2.1 ≤ 12 ∧ 1 ≤ s.2.2 ∧ s.2.2 ≤ daysInMonth s.1 s.2.1

instance (s : DateStr) : Decidable (validDate s) :=
  inferInstanceAs (Decidable (1 ≤ s.2.1 ∧ s.2.1 ≤ 12 ∧ 1 ≤ s.2.2 ∧ s.2.2 ≤ daysInMonth s.1 s.2.1))

/-- `datetime.strptime(s, "%Y/%m/%d").date()`: validate the fields, then
return the denoted date.  Raises `ValueError` on invalid fields. -/
def strptime (s : DateStr) : Except String Int :=
  if validDate s then .ok (ordOf s) else .error "ValueError: invalid date string"

/-! ### Round-trip lemmas for the calendar -/

theorem findYoe_nonneg (doe : Int) (n : Nat) : 0 ≤ findYoe doe n := by
  induction n with
  | zero => simp [findYoe]
  | succ n ih =>
    unfold findYoe
    split
    · exact Int.ofNat_nonneg _
    · exact ih

theorem findYoe_le (doe : Int) (n : Nat) : findYoe doe n ≤ Int.ofNat n := by
  induction n with
  | zero => simp [findYoe]
  | succ n ih =>
    unfold findYoe
    split
    · exact le_refl _
    · exact le_trans ih (Int.ofNat_le.mpr (Nat.le_succ n))

theorem findYoe_G_le (doe : Int) (hdoe : 0 ≤ doe) (n : Nat) : G (findYoe doe n) ≤ doe := by
  induction n with
  | zero =>
    show G 0 ≤ doe
    unfold G
    omega
  | succ n ih =>
    unfold findYoe
    split
    · assumption
    · exact ih

theorem findYoe_max (doe : Int) (n : Nat) :
    findYoe doe n = Int.ofNat n ∨ doe < G (findYoe doe n + 1) := by
  induction n with
  | zero => exact Or.inl rfl
  | succ n ih =>
    unfold findYoe
    split
    · exact Or.inl rfl
    · rcases ih with h | h
      · right
        rw [h]
        have hc : Int.ofNat n + 1 = Int.ofNat (n + 1) := by simp
        rw [hc]
        omega
      · exact Or.inr h

/-- The per-year increment of `G` is at most 366. -/
theorem G_succ_le (y : Int) : G (y + 1) ≤ G y + 366 := by
  unfold G
  omega

/-- Key round trip: converting a day number to calendar fields and back is
the identity.  This certifies that `civilFromDays` really is the inverse of
`toOrdinal`, i.e. that the embedding's calendar is coherent. -/
theorem toOrdinal_civilFromDays (z : Int) : ordOf (serviceDateFormat z) = z := by
  unfold ordOf serviceDateFormat civilFromDays toOrdinal
  set zs := z + 719468 with hzs
  set era := zs / 146097 with hera
  set doe := zs - era * 146097 with hdoe
  have hdoe0 : 0 ≤ doe := by rw [hdoe, hera]; omega
  have hdoe1 : doe ≤ 146096 := by rw [hdoe, hera]; omega
  set yoe := findYoe doe 399 with hyoe
  have hyoe0 : 0 ≤ yoe := findYoe_nonneg doe 399
  have hyoe399 : yoe ≤ 399 := by
    have := findYoe_le doe 399
    simpa using this
  have hGyoe : G yoe ≤ doe := findYoe_G_le doe hdoe0 399
  set doy := doe - G yoe with hdoy
  have hdoy0 : 0 ≤ doy := by omega
  have hdoy365 : doy ≤ 365 := by
    rcases findYoe_max doe 399 with h | h
    · have h399 : yoe = 399 := by rw [hyoe, h]; rfl
      have hG399 : G 399 = 145731 := by decide
      rw [hdoy, h399, hG399]
      omega
    · rw [← hyoe] at h
      have := G_succ_le yoe
      omega
  set mp := (5 * doy + 2) / 153 with hmp
  have hmp0 : 0 ≤ mp := by rw [hmp]; omega
  have hmp11 : mp ≤ 11 := by rw [hmp]; omega
  set d := doy - (153 * mp + 2) / 5 + 1 with hd
  set m := if mp < 10 then mp + 3 else mp - 9 with hm
  -- The `m ≤ 2` correction on the year cancels against its inverse.
  have hcancel :
      (if m ≤ 2 then yoe + era * 400 + (if m ≤ 2 then 1 else 0) - 1
        else yoe + era * 400 + (if m ≤ 2 then 1 else 0)) = yoe + era * 400 := by
    by_cases hc : m ≤ 2 <;> simp [hc]
  have hera' : (yoe + era * 400) / 400 = era := by omega
  have hmp' : (m + 9) % 12 = mp := by
    rw [hm]
    by_cases hc : mp < 10
    · simp only [hc, if_true]
      omega
    · simp only [hc, if_false]
      omega
  simp only [hcancel, hera', hmp']
  have hyoe' : yoe + era * 400 - era * 400 = yoe := by ring
  rw [hyoe']
  have hdoy' : (153 * mp + 2) / 5 + d - 1 = doy := by rw [hd]; ring
  rw [hdoy']
  rw [hdoy, hdoe]
  ring

/-- The one-day leaf bin's field arithmetic: decrementing the day field
shifts the denoted date by exactly one day, even past the first of the
month (where the string is no longer a valid date). -/
theorem toOrdinal_day_pred (y m d : Int) : toOrdinal y m (d - 1) = toOrdinal y m d - 1 := by
  unfold toOrdinal
  ring

theorem ordOf_strftime (z : Int) : ordOf (serviceDateFormat z) = z :=
  toOrdinal_civilFromDays z

/-! ## utils.py -/

/-- Python `range(start, stop, step)` for a positive step, as a list. -/
def pyRangeInt (start stop step : Int) : List Int :=
  (List.range ((stop - start + step - 1) / step).toNat).map
    (fun k : Nat => start + step * (k : Int))

/-- Python `range(start, stop, step)` over natural numbers (positive step). -/
def pyRangeNat (start stop step : Nat) : List Nat :=
  (List.range ((stop - start + step - 1) / step)).map (fun k => start + step * k)

/-- `utils.batches`: slice the list into `n`-sized chunks,
`iterable[index : min(index + n, length)]` for `index in range(0, length, n)`. -/
def batches {α : Type} (iterable : List α) (n : Nat) : List (List α) :=
  let length := iterable.length
  (pyRangeNat 0 length n).map (fun index => ((iterable.take (min (index + n) length)).drop index))

/-- `utils.make_date_bins`.  Dates are day numbers; date strings are the
displayed field triples.  List comprehensions `[f(i) for i in r if 1 < i]`
become `map` over `filter`.  The final branch is the one-day leaf bin built
from raw calendar fields (note the `day - 1` field arithmetic). -/
def make_date_bins (start_date end_date : Int) :
    Except String (List (DateStr × DateStr)) :=
  if start_date > end_date then
    .error "ValueError: Start date must be before end date."
  else if end_date - start_date > 366 then
    .ok (((pyRangeInt 1 ((dateYear end_date - dateYear start_date) * 365) 365).filter
        (fun i => 1 < i)).map
      (fun i => (serviceDateFormat (end_date - i), serviceDateFormat (end_date - (i - 365)))))
  else if end_date - start_date > 31 then
    .ok (((pyRangeInt 1 365 28).filter (fun i => 1 < i)).map
      (fun i => (serviceDateFormat (end_date - i), serviceDateFormat (end_date - (i - 28)))))
  else if end_date - start_date > 7 then
    .ok (((pyRangeInt 1 31 7).filter (fun i => 1 < i)).map
      (fun i => (serviceDateFormat (end_date - i), serviceDateFormat (end_date - (i - 7)))))
  else if end_date - start_date > 1 then
    .ok (((pyRangeInt 1 7 1).filter (fun i => 1 < i)).map
      (fun i => (serviceDateFormat (end_date - i), serviceDateFormat (end_date - (i - 1)))))
  else
    .ok [((dateYear end_date, dateMonth end_date, dateDay end_date),
          (dateYear end_date, dateMonth end_date, dateDay end_date - 1))]

/-! ## pymed.py: the resolver and its service oracle -/

/-- Error taxonomy of the embedded code: `valueError` for Python
`ValueError` (invalid range, unparsable date string), `transport` for
`requests` failures surfaced by `raise_for_status`, and `fuelExhausted`
for the embedding's explicit recursion fuel (never raised by the source;
shown unreachable for sufficient fuel). -/
inductive PyErr : Type
  | valueError (msg : String)
  | transport (msg : String)
  | fuelExhausted
deriving DecidableEq

structure EsearchResponse : Type where
  count : Int
  idlist : List String
deriving DecidableEq

/-- The varying query parameters of an esearch request (the constant
`tool` / `email` / `db` / `api_key` entries of the parameter dict are
omitted as they never change within a resolve call). -/
structure Request : Type where
  term : String
  retmax : Int
  mindate : Option DateStr
  maxdate : Option DateStr
deriving DecidableEq

/-- The remote service as a deterministic oracle: each request either
yields a (well-formed) esearch response or fails with a transport error. -/
def Service : Type := Request → Except String EsearchResponse

/-- `PubMed.get` minus the rate gate: issue the request, mapping an HTTP
failure to a `TransportError`. -/
def pyGet (svc : Service) (req : Request) : Except PyErr EsearchResponse :=
  match svc req with
  | .ok r => .ok r
  | .error msg => .error (.transport msg)

def max_retriveable_results : Int := 10000

/-- The probe request issued by `get_total_results_count`. -/
def probeRequest (query : String) : Request :=
  { term := query, retmax := 1, mindate := none, maxdate := none }

/-- `PubMed.get_total_results_count`: count-only probe with `retmax = 1`.
(The count field is modelled as already-parsed; a missing or malformed
count — the spec's `ParseError` — is outside this embedding.) -/
def get_total_results_count (svc : Service) (query : String) : Except PyErr Int :=
  match pyGet svc (probeRequest query) with
  | .ok r => .ok r.count
  | .error e => .error e

/-- One iteration of the `for date_bin in date_bins` loop body sets the
bin's bounds and re-clamps `retmax`; this is the request it then issues. -/
def binRequest (parameters : Request) (date_bin : DateStr × DateStr) (max_results : Int) :
    Request :=
  let p1 : Request := { parameters with mindate := some date_bin.1, maxdate := some date_bin.2 }
  if max_results < p1.retmax then { p1 with retmax := max_results } else p1

/-- The loop body of `PubMed.recurse_bin_processing`, abstracted over the
recursive call (`recSub`, which is `recurse_bin_processing` at one less
fuel).  Returns the accumulated identifier list, the number of issued
requests (instrumentation absent from the source), and the final state of
the mutable parameter dict, which the source threads through recursive
calls by reference. -/
def processBinsAux (svc : Service)
    (recSub : Int → Int → Request → Int → Except PyErr (List String × Nat × Request)) :
    List (DateStr × DateStr) → Request → Int → Except PyErr (List String × Nat × Request)
  | [], parameters, _ => .ok ([], 0, parameters)
  | date_bin :: rest, parameters, max_results =>
    let p2 := binRequest parameters date_bin max_results
    match pyGet svc p2 with
    | .error e => .error e
    | .ok response =>
      if max_retriveable_results < response.count then
        match strptime date_bin.1 with
        | .error msg => .error (.valueError msg)
        | .ok la =>
          match strptime date_bin.2 with
          | .error msg => .error (.valueError msg)
          | .ok lb =>
            match recSub la lb p2 max_results with
            | .error e => .error e
            | .ok (subIds, n2, p3) =>
              match processBinsAux svc recSub rest p3 max_results with
              | .error e => .error e
              | .ok (restIds, n3, p4) =>
                .ok (response.idlist ++ subIds ++ restIds, 1 + n2 + n3, p4)
      else
        match processBinsAux svc recSub rest p2 max_results with
        | .error e => .error e
        | .ok (restIds, n3, p4) => .ok (response.idlist ++ restIds, 1 + n3, p4)

/-- `PubMed.recurse_bin_processing` with explicit fuel. -/
def recurse_bin_processing (svc : Service) :
    Nat → Int → Int → Request → Int → Except PyErr (List String × Nat × Request)
  | 0, _, _, _, _ => .error .fuelExhausted
  | Nat.succ f, start_date, end_date, parameters, max_results =>
    match make_date_bins start_date end_date with
    | .error msg => .error (.valueError msg)
    | .ok date_bins =>
      processBinsAux svc (recurse_bin_processing svc f) date_bins parameters max_results

/-- The bin loop at a given fuel level. -/
def processBins (svc : Service) (f : Nat) :
    List (DateStr × DateStr) → Request → Int → Except PyErr (List String × Nat × Request) :=
  processBinsAux svc (recurse_bin_processing svc f)

/-- The sub-resolution of a single date bin: its own request plus, when
its count still exceeds the cap, the recursive descent into the bin. -/
def processOneBin (svc : Service) (f : Nat) (date_bin : DateStr × DateStr)
    (parameters : Request) (max_results : Int) :
    Except PyErr (List String × Nat × Request) :=
  processBins svc f [date_bin] parameters max_results

/-- `PubMed.get_article_ids`.  `today` stands for `datetime.date.today()`.
The successful result carries the identifier list and the number of
esearch requests issued (probe included). -/
def get_article_ids (svc : Service) (fuel : Nat) (query : String) (max_results : Int)
    (start_year : Int) (today : Int) : Except PyErr (List String × Nat) :=
  let parameters : Request :=
    { term := query, retmax := max_retriveable_results, mindate := none, maxdate := none }
  match get_total_results_count svc query with
  | .error e => .error e
  | .ok total_result_count =>
    let max_results := if max_results = -1 then total_result_count else max_results
    let parameters :=
      if max_results < parameters.retmax then { parameters with retmax := max_results }
      else parameters
    if total_result_count ≤ max_retriveable_results then
      match pyGet svc parameters with
      | .error e => .error e
      | .ok response => .ok (response.idlist, 2)
    else
      match recurse_bin_processing svc fuel (toOrdinal start_year 1 1) today parameters
          max_results with
      | .error e => .error e
      | .ok (ids, n, _) => .ok (ids, 1 + n)

/-! ## pymed.py: the rate gate -/

/-- One second, at the microsecond resolution of Python's `datetime`. -/
def oneSecond : Int := 1000000

/-- The list comprehension in `exceeded_rate_limit`: keep only timestamps
newer than `now - 1 second`. -/
def pruneRequests (requests_made : List Int) (now : Int) : List Int :=
  requests_made.filter (fun requestTime => now - oneSecond < requestTime)

/-- `PubMed.exceeded_rate_limit`: prune, then compare the retained count
with the limit.  Returns the pruned list (the method mutates
`self.requests_made`) and the boolean result. -/
def exceeded_rate_limit (rate_limit : Int) (requests_made : List Int) (now : Int) :
    List Int × Bool :=
  let pruned := pruneRequests requests_made now
  (pruned, decide (rate_limit < (pruned.length : Int)))

/-- One sequential execution of `PubMed.get` seen by the rate limiter:
`checkTime` is the instant of the final (successful) spin-wait check,
`outcome` the HTTP result, `appendTime` the instant the timestamp would be
appended.  Yields `none` when the gate would still be spinning at
`checkTime`. -/
def getStep (rate_limit : Int) (requests_made : List Int) (checkTime appendTime : Int)
    (outcome : Except String String) : Option (Except String String × List Int) :=
  let pe := exceeded_rate_limit rate_limit requests_made checkTime
  if pe.2 then none
  else
    some (match outcome with
      | .error e => (.error e, pe.1)
      | .ok body => (.ok body, pe.1 ++ [appendTime]))

/-- A rate-gate admission event of a sequential trace. -/
structure GateCall : Type where
  checkTime : Int
  appendTime : Int
deriving DecidableEq

/-- The gate's state transition for one successful admission. -/
def gateStep (rate_limit : Int) (st : List Int) (c : GateCall) : Option (List Int) :=
  let pe := exceeded_rate_limit rate_limit st c.checkTime
  if pe.2 then none else some (pe.1 ++ [c.appendTime])

/-- Run a sequence of admissions through the gate. -/
def gateRun (rate_limit : Int) (st : List Int) : List GateCall → Option (List Int)
  | [] => some st
  | c :: cs =>
    match gateStep rate_limit st c with
    | none => none
    | some st' => gateRun rate_limit st' cs

/-- Sequential load: each call's final check precedes its append, and each
append precedes the next call's check. -/
def SeqTrace (calls : List GateCall) : Prop :=
  (∀ c ∈ calls, c.checkTime ≤ c.appendTime) ∧
    calls.Chain' (fun a b => a.appendTime ≤ b.checkTime)

instance (calls : List GateCall) : Decidable (SeqTrace calls) :=
  inferInstanceAs (Decidable ((∀ c ∈ calls, c.checkTime ≤ c.appendTime) ∧
    calls.Chain' (fun a b : GateCall => a.appendTime ≤ b.checkTime)))

/-- Number of admissions completed in the rolling 1-second window ending
at `T`. -/
def windowCount (admissionTimes : List Int) (T : Int) : Nat :=
  (admissionTimes.filter (fun t => T - oneSecond < t ∧ t ≤ T)).length

/-! ## Shared lemmas about `make_date_bins` -/

theorem ordOf_fields (e : Int) : toOrdinal (dateYear e) (dateMonth e) (dateDay e) = e :=
  toOrdinal_civilFromDays e

theorem mem_pyRangeInt {start stop step : Int} {i : Int}
    (h : i ∈ pyRangeInt start stop step) : ∃ k : Nat, i = start + step * (k : Int) := by
  unfold pyRangeInt at h
  rcases List.mem_map.mp h with ⟨k, _, hk⟩
  exact ⟨k, hk.symm⟩

/-- Every bin of a stepping tier comes from an offset `i ≥ step + 1`
(`i = 1` is filtered out, and offsets go up in increments of `step`). -/
theorem mem_tier_bins {e B step : Int} (hstep : 0 < step) {b : DateStr × DateStr}
    (hb : b ∈ ((pyRangeInt 1 B step).filter (fun i => 1 < i)).map
      (fun i => (serviceDateFormat (e - i), serviceDateFormat (e - (i - step))))) :
    ∃ i : Int, step + 1 ≤ i ∧
      b = (serviceDateFormat (e - i), serviceDateFormat (e - (i - step))) := by
  rcases List.mem_map.mp hb with ⟨i, hi, hbi⟩
  rcases List.mem_filter.mp hi with ⟨hin, hcond⟩
  have h1i : 1 < i := by simpa using hcond
  rcases mem_pyRangeInt hin with ⟨k, hk⟩
  refine ⟨i, ?_, hbi.symm⟩
  have hk0 : 0 < step * (k : Int) := by omega
  have hk1 : 1 ≤ (k : Int) := by
    rcases Int.lt_or_le 0 (k : Int) with h | h
    · omega
    · have : (k : Int) = 0 := le_antisymm h (Int.ofNat_nonneg k)
      rw [this] at hk0
      simp at hk0
  have : step * 1 ≤ step * (k : Int) := by
    exact mul_le_mul_of_nonneg_left hk1 (le_of_lt hstep)
  omega

/-- The step size of the tier `make_date_bins` picks for a given span. -/
def tierStep (span : Int) : Int :=
  if span > 366 then 365
  else if span > 31 then 28
  else if span > 7 then 7
  else 1

/-- Case analysis on `make_date_bins` for a valid range: either a stepping
tier (every bin comes from an offset `i ≥ step + 1` with the tier's step),
or the one-day leaf bin built from raw calendar fields. -/
theorem make_date_bins_cases (s e : Int) (h : s ≤ e) :
    ∃ bins, make_date_bins s e = .ok bins ∧
      ((1 < e - s ∧ ∀ b ∈ bins, ∃ i step : Int, 0 < step ∧ step + 1 ≤ i ∧
          step = tierStep (e - s) ∧
          b = (serviceDateFormat (e - i), serviceDateFormat (e - (i - step)))) ∨
       (e - s ≤ 1 ∧ bins = [((dateYear e, dateMonth e, dateDay e),
          (dateYear e, dateMonth e, dateDay e - 1))])) := by
  unfold make_date_bins
  rw [if_neg (by omega : ¬ s > e)]
  split_ifs with h1 h2 h3 h4
  · refine ⟨_, rfl, Or.inl ⟨by omega, ?_⟩⟩
    intro b hb
    rcases mem_tier_bins (by norm_num : (0:Int) < 365) hb with ⟨i, hi, hbi⟩
    exact ⟨i, 365, by norm_num, hi, by unfold tierStep; rw [if_pos h1], hbi⟩
  · refine ⟨_, rfl, Or.inl ⟨by omega, ?_⟩⟩
    intro b hb
    rcases mem_tier_bins (by norm_num : (0:Int) < 28) hb with ⟨i, hi, hbi⟩
    exact ⟨i, 28, by norm_num, hi,
      by unfold tierStep; rw [if_neg h1, if_pos h2], hbi⟩
  · refine ⟨_, rfl, Or.inl ⟨by omega, ?_⟩⟩
    intro b hb
    rcases mem_tier_bins (by norm_num : (0:Int) < 7) hb with ⟨i, hi, hbi⟩
    exact ⟨i, 7, by norm_num, hi,
      by unfold tierStep; rw [if_neg h1, if_neg h2, if_pos h3], hbi⟩
  · refine ⟨_, rfl, Or.inl ⟨by omega, ?_⟩⟩
    intro b hb
    rcases mem_tier_bins (by norm_num : (0:Int) < 1) hb with ⟨i, hi, hbi⟩
    exact ⟨i, 1, by norm_num, hi,
      by unfold tierStep; rw [if_neg h1, if_neg h2, if_neg h3], hbi⟩
  · exact ⟨_, rfl, Or.inr ⟨by omega, rfl⟩⟩

/-! ## C7: `make_date_bins` raises `InvalidRangeError` iff `start > end` -/

/-- C7.  `make_date_bins(start, end)` fails with the invalid-range
`ValueError` if and only if `start > end`; for `start ≤ end` it never
raises (every tier returns a list). -/
theorem c7_make_date_bins_error_iff (s e : Int) :
    make_date_bins s e = .error "ValueError: Start date must be before end date." ↔ e < s := by
  unfold make_date_bins
  split_ifs with h1 h2 h3 h4 h5 <;> simp <;> omega

/-! ## C9: `batches` concatenates back to the input -/

theorem batches_nil {α : Type} (n : Nat) : batches ([] : List α) n = [] := by
  cases n with
  | zero => simp [batches, pyRangeNat]
  | succ n =>
    simp [batches, pyRangeNat, Nat.div_eq_of_lt (Nat.lt_succ_of_le (Nat.le_refl n))]

/-- Unfolding `batches`: the first slice is `take n`, the remaining slices
are the batches of `drop n`. -/
theorem batches_cons {α : Type} (l : List α) (n : Nat) (hn : 1 ≤ n) (hl : l ≠ []) :
    batches l n = l.take n :: batches (l.drop n) n := by
  have hL : 1 ≤ l.length := List.length_pos.mpr hl
  have hcount : (l.length - 0 + n - 1) / n = (l.length - 1) / n + 1 := by
    have hx : l.length - 0 + n - 1 = (l.length - 1) + n := by omega
    rw [hx, Nat.add_div_right _ (by omega)]
  by_cases hcase : l.length ≤ n
  · rw [List.drop_eq_nil_iff.mpr hcase, batches_nil, List.take_of_length_le hcase]
    simp only [batches, pyRangeNat]
    have hc1 : (l.length - 0 + n - 1) / n = 1 := by
      rw [hcount, Nat.div_eq_of_lt (by omega)]
    rw [hc1]
    have hr1 : List.range 1 = [0] := rfl
    rw [hr1]
    simp only [List.map_cons, List.map_nil]
    have hidx : 0 + n * 0 = 0 := by ring
    rw [hidx]
    have hmin : min (0 + n) l.length = l.length := by omega
    rw [hmin, List.take_length, List.drop_zero]
  · have hcount' : (l.length - n - 0 + n - 1) / n = (l.length - 1) / n := by
      have hx : l.length - n - 0 + n - 1 = l.length - 1 := by omega
      rw [hx]
    simp only [batches, pyRangeNat, List.length_drop]
    rw [hcount, hcount', List.range_succ_eq_map]
    simp only [List.map_cons, List.map_map]
    congr 1
    · -- head slice
      have hidx : 0 + n * 0 = 0 := by ring
      rw [hidx]
      have hmin : min (0 + n) l.length = n := by omega
      rw [hmin, List.drop_zero]
    · -- tail slices, index-shifted by n
      apply List.map_congr_left
      intro k _
      show (l.take (min (0 + n * Nat.succ k + n) l.length)).drop (0 + n * Nat.succ k) =
        ((l.drop n).take (min (0 + n * k + n) (l.length - n))).drop (0 + n * k)
      have hidx : 0 + n * Nat.succ k = n * k + n := by rw [Nat.mul_succ]; omega
      have hidx2 : 0 + n * k = n * k := by omega
      rw [hidx, hidx2]
      have hdd : (l.take (min (n * k + n + n) l.length)).drop (n * k + n) =
          ((l.take (min (n * k + n + n) l.length)).drop n).drop (n * k) := by
        rw [List.drop_drop]
        congr 1
        omega
      rw [hdd, List.drop_take]
      congr 1
      congr 1
      omega

theorem batches_flatten_aux {α : Type} (n : Nat) (hn : 1 ≤ n) :
    ∀ (N : Nat) (l : List α), l.length ≤ N → (batches l n).flatten = l := by
  intro N
  induction N with
  | zero =>
    intro l h
    have : l = [] := List.length_eq_zero.mp (by omega)
    rw [this, batches_nil]
    rfl
  | succ N ih =>
    intro l h
    by_cases hl : l = []
    · rw [hl, batches_nil]; rfl
    · rw [batches_cons l n hn hl]
      simp only [List.flatten_cons]
      rw [ih (l.drop n) (by simp only [List.length_drop]; omega)]
      exact List.take_append_drop n l

theorem batches_len_aux {α : Type} (n : Nat) (hn : 1 ≤ n) :
    ∀ (N : Nat) (l : List α), l.length ≤ N → ∀ b ∈ batches l n, b.length ≤ n := by
  intro N
  induction N with
  | zero =>
    intro l h b hb
    have : l = [] := List.length_eq_zero.mp (by omega)
    rw [this, batches_nil] at hb
    simp at hb
  | succ N ih =>
    intro l h b hb
    by_cases hl : l = []
    · rw [hl, batches_nil] at hb; simp at hb
    · rw [batches_cons l n hn hl] at hb
      rcases List.mem_cons.mp hb with hb | hb
      · rw [hb]
        simp only [List.length_take]
        omega
      · exact ih (l.drop n) (by simp only [List.length_drop]; omega) b hb

theorem batches_dropLast_aux {α : Type} (n : Nat) (hn : 1 ≤ n) :
    ∀ (N : Nat) (l : List α), l.length ≤ N →
      ∀ b ∈ (batches l n).dropLast, b.length = n := by
  intro N
  induction N with
  | zero =>
    intro l h b hb
    have : l = [] := List.length_eq_zero.mp (by omega)
    rw [this, batches_nil] at hb
    simp at hb
  | succ N ih =>
    intro l h b hb
    by_cases hl : l = []
    · rw [hl, batches_nil] at hb; simp at hb
    · rw [batches_cons l n hn hl] at hb
      by_cases hd : l.drop n = []
      · rw [hd, batches_nil] at hb
        simp at hb
      · have hlen : n < l.length := by
          by_contra hc
          exact hd (List.drop_eq_nil_iff.mpr (by omega))
        rw [batches_cons (l.drop n) n hn hd] at hb
        rw [List.dropLast_cons₂] at hb
        rcases List.mem_cons.mp hb with hb | hb
        · rw [hb]
          simp only [List.length_take]
          omega
        · rw [← batches_cons (l.drop n) n hn hd] at hb
          exact ih (l.drop n) (by simp only [List.length_drop]; omega) b hb

/-- C9.  For every list and batch size `n ≥ 1`: concatenating the batches
in order yields exactly the input, every batch has length at most `n`, and
every batch except possibly the last has length exactly `n`. -/
theorem c9_batches_spec {α : Type} (l : List α) (n : Nat) (hn : 1 ≤ n) :
    (batches l n).flatten = l ∧
      (∀ b ∈ batches l n, b.length ≤ n) ∧
      (∀ b ∈ (batches l n).dropLast, b.length = n) :=
  ⟨batches_flatten_aux n hn l.length l (le_refl _),
   batches_len_aux n hn l.length l (le_refl _),
   batches_dropLast_aux n hn l.length l (le_refl _)⟩

/-- Witness for C9 at a concrete input. -/
theorem c9_batches_spec_witness :
    (batches [1, 2, 3, 4, 5, 6, 7] 3).flatten = [1, 2, 3, 4, 5, 6, 7] ∧
      (∀ b ∈ batches [1, 2, 3, 4, 5, 6, 7] 3, b.length ≤ 3) ∧
      (∀ b ∈ (batches [1, 2, 3, 4, 5, 6, 7] 3).dropLast, b.length = 3) :=
  c9_batches_spec [1, 2, 3, 4, 5, 6, 7] 3 (by norm_num)

/-! ## C10: failed requests and the timestamp list -/

/-- C10 counterexample.  The claim reads: a failing request leaves
`requests_made` unchanged.  But `get` always runs `exceeded_rate_limit`
first, which prunes the list in place, so a stale timestamp disappears
even when the request then fails. -/
theorem c10_counterexample :
    ¬ (∀ (R : Int) (st : List Int) (c a : Int) (msg : String)
        (res : Except String String) (st' : List Int),
        getStep R st c a (.error msg) = some (res, st') → st' = st) := by
  intro h
  have hx := h 3 [0] 2000000 2000001 "ConnectionError" (.error "ConnectionError") []
    (by decide)
  exact (by decide : ([] : List Int) ≠ [0]) hx

/-- C10 amended.  A timestamp is appended only when the HTTP request
returns successfully: on failure nothing is appended and `requests_made`
is merely pruned of entries older than one second (a sublist of the old
list), so the failed request itself never counts against the window; on
success the state is the pruned list with exactly the new timestamp
appended. -/
theorem c10_get_timestamp_discipline :
    (∀ (R : Int) (st : List Int) (c a : Int) (msg : String)
        (res : Except String String) (st' : List Int),
        getStep R st c a (.error msg) = some (res, st') →
          res = .error msg ∧ st' = pruneRequests st c ∧ st'.Sublist st) ∧
    (∀ (R : Int) (st : List Int) (c a : Int) (body : String)
        (res : Except String String) (st' : List Int),
        getStep R st c a (.ok body) = some (res, st') →
          res = .ok body ∧ st' = pruneRequests st c ++ [a]) := by
  constructor
  · intro R st c a msg res st' h
    simp only [getStep, exceeded_rate_limit] at h
    split at h
    · exact absurd h (by simp)
    · simp only [Option.some.injEq, Prod.mk.injEq] at h
      rcases h with ⟨hres, hst⟩
      exact ⟨hres.symm, hst.symm, hst.symm ▸ List.filter_sublist st⟩
  · intro R st c a body res st' h
    simp only [getStep, exceeded_rate_limit] at h
    split at h
    · exact absurd h (by simp)
    · simp only [Option.some.injEq, Prod.mk.injEq] at h
      exact ⟨h.1.symm, h.2.symm⟩

/-- Witness for C10's amended theorem at concrete inputs. -/
theorem c10_get_timestamp_discipline_witness :
    ((Except.error "ConnectionError" : Except String String) = .error "ConnectionError" ∧
      ([] : List Int) = pruneRequests [0] 2000000 ∧ ([] : List Int).Sublist [0]) ∧
    ((Except.ok "body" : Except String String) = .ok "body" ∧
      ([2000001] : List Int) = pruneRequests [] 2000000 ++ [2000001]) :=
  ⟨c10_get_timestamp_discipline.1 3 [0] 2000000 2000001 "ConnectionError"
      (.error "ConnectionError") [] (by decide),
   c10_get_timestamp_discipline.2 3 [] 2000000 2000001 "body"
      (.ok "body") [2000001] (by decide)⟩

/-! ## C4: the DateBin ordering invariant -/

/-- C4 counterexample.  In the one-day leaf bin, the first tuple component
is the *end* date and the second is the end date with the day field
decremented, so the claimed invariant (first component = lower bound ≤
second component = upper bound) fails. -/
theorem c4_counterexample :
    ¬ (∀ (s e : Int) (bins : List (DateStr × DateStr)), s ≤ e →
        make_date_bins s e = .ok bins → ∀ b ∈ bins, ordOf b.1 ≤ ordOf b.2) := by
  intro h
  have hb := h (toOrdinal 2024 6 15) (toOrdinal 2024 6 15)
      [((2024, 6, 15), (2024, 6, 14))] (le_refl _) (by decide)
      ((2024, 6, 15), (2024, 6, 14)) (List.mem_singleton.mpr rfl)
  exact (by decide : ¬ ordOf ((2024 : Int), (6 : Int), (15 : Int)) ≤
    ordOf ((2024 : Int), (6 : Int), (14 : Int))) hb

/-- C4 amended.  In every stepping tier the first component is strictly
the lower bound (`lower < upper`); the one-day leaf bin instead has the
components swapped: its first component denotes `end` and its second
denotes `end` minus one day (by day-field arithmetic), so there
`first > second`. -/
theorem c4_bin_bound_order (s e : Int) (bins : List (DateStr × DateStr)) (h : s ≤ e)
    (hbins : make_date_bins s e = .ok bins) :
    (1 < e - s → ∀ b ∈ bins, ordOf b.1 < ordOf b.2) ∧
    (e - s ≤ 1 → ∀ b ∈ bins, ordOf b.1 = e ∧ ordOf b.2 = e - 1) := by
  rcases make_date_bins_cases s e h with ⟨bins', hok, hcase⟩
  rw [hbins] at hok
  cases hok
  rcases hcase with ⟨hspan, hstep⟩ | ⟨hspan, hleaf⟩
  · constructor
    · intro _ b hb
      rcases hstep b hb with ⟨i, step, hs, hi, hts, rfl⟩
      show ordOf (serviceDateFormat (e - i)) < ordOf (serviceDateFormat (e - (i - step)))
      rw [ordOf_strftime, ordOf_strftime]
      omega
    · intro hcontra
      omega
  · constructor
    · intro hcontra
      omega
    · intro _ b hb
      rw [hleaf] at hb
      rcases List.mem_singleton.mp hb with rfl
      constructor
      · exact ordOf_fields e
      · show toOrdinal (dateYear e) (dateMonth e) (dateDay e - 1) = e - 1
        rw [toOrdinal_day_pred, ordOf_fields]

/-- Witness for C4's amended theorem at the leaf bin. -/
theorem c4_bin_bound_order_witness :
    (1 < toOrdinal 2024 6 15 - toOrdinal 2024 6 15 →
      ∀ b ∈ [(((2024 : Int), (6 : Int), (15 : Int)), ((2024 : Int), (6 : Int), (14 : Int)))],
        ordOf b.1 < ordOf b.2) ∧
    (toOrdinal 2024 6 15 - toOrdinal 2024 6 15 ≤ 1 →
      ∀ b ∈ [(((2024 : Int), (6 : Int), (15 : Int)), ((2024 : Int), (6 : Int), (14 : Int)))],
        ordOf b.1 = toOrdinal 2024 6 15 ∧ ordOf b.2 = toOrdinal 2024 6 15 - 1) :=
  c4_bin_bound_order (toOrdinal 2024 6 15) (toOrdinal 2024 6 15)
    [((2024, 6, 15), (2024, 6, 14))] (le_refl _) (by decide)

/-! ## C3: bin bounds for a valid range -/

/-- C3 counterexample.  For a span longer than 366 days crossing exactly
one calendar year boundary (here 2025-01-01 to 2026-01-15, 379 days), the
offset range `range(1, (end.year - start.year) * 365, 365) = [1]` is
entirely removed by the `i > 1` filter and `make_date_bins` returns the
empty list, refuting non-emptiness. -/
theorem c3_counterexample :
    ¬ (∀ (s e : Int) (bins : List (DateStr × DateStr)), s ≤ e →
        make_date_bins s e = .ok bins →
          bins ≠ [] ∧ ∀ b ∈ bins,
            s ≤ ordOf b.1 ∧ ordOf b.1 ≤ e ∧ s ≤ ordOf b.2 ∧ ordOf b.2 ≤ e) := by
  intro h
  have hb := h (toOrdinal 2025 1 1) (toOrdinal 2026 1 15) [] (by decide) (by decide)
  exact hb.1 rfl

/-- C3 amended.  For `start ≤ end` the call succeeds with a (possibly
empty) sequence of bins; every bin's first bound denotes a date at or
before `end` and every bin's second bound a date at or before `end - 1`
(the one-day edge truncation).  Non-emptiness fails (the >366-day tier
with a one-year calendar difference yields no bins), and lower bounds of
the sub-year tiers may precede `start`. -/
theorem c3_bin_bounds (s e : Int) (h : s ≤ e) :
    ∃ bins, make_date_bins s e = .ok bins ∧
      ∀ b ∈ bins, ordOf b.1 ≤ e ∧ ordOf b.2 ≤ e - 1 := by
  rcases make_date_bins_cases s e h with ⟨bins, hok, hcase⟩
  refine ⟨bins, hok, ?_⟩
  intro b hb
  rcases hcase with ⟨hspan, hstep⟩ | ⟨hspan, hleaf⟩
  · rcases hstep b hb with ⟨i, step, hs, hi, hts, rfl⟩
    constructor
    · show ordOf (serviceDateFormat (e - i)) ≤ e
      rw [ordOf_strftime]
      omega
    · show ordOf (serviceDateFormat (e - (i - step))) ≤ e - 1
      rw [ordOf_strftime]
      omega
  · rw [hleaf] at hb
    rcases List.mem_singleton.mp hb with rfl
    constructor
    · show toOrdinal (dateYear e) (dateMonth e) (dateDay e) ≤ e
      rw [ordOf_fields]
    · show toOrdinal (dateYear e) (dateMonth e) (dateDay e - 1) ≤ e - 1
      rw [toOrdinal_day_pred, ordOf_fields]

/-- Witness for C3's amended theorem on a five-day range. -/
theorem c3_bin_bounds_witness :
    ∃ bins, make_date_bins (toOrdinal 2024 6 15) (toOrdinal 2024 6 20) = .ok bins ∧
      ∀ b ∈ bins, ordOf b.1 ≤ toOrdinal 2024 6 20 ∧ ordOf b.2 ≤ toOrdinal 2024 6 20 - 1 :=
  c3_bin_bounds (toOrdinal 2024 6 15) (toOrdinal 2024 6 20) (by decide)

/-! ## C2: the rolling-window bound of the rate gate -/

theorem gateRun_append (R : Int) (st : List Int) (l1 l2 : List GateCall) :
    gateRun R st (l1 ++ l2) = (gateRun R st l1).bind (fun st' => gateRun R st' l2) := by
  induction l1 generalizing st with
  | nil => rfl
  | cons a t ih =>
    show (match gateStep R st a with
        | none => none
        | some st' => gateRun R st' (t ++ l2)) =
      ((match gateStep R st a with
        | none => none
        | some st' => gateRun R st' t).bind fun st' => gateRun R st' l2)
    cases gateStep R st a with
    | none => rfl
    | some st' => exact ih st'

theorem seqTrace_append_left (l1 l2 : List GateCall) (h : SeqTrace (l1 ++ l2)) :
    SeqTrace l1 := by
  constructor
  · intro c hc
    exact h.1 c (List.mem_append_left l2 hc)
  · exact (List.chain'_append.mp h.2).1

/-- In a sequential trace ending with `c`, every earlier append precedes
`c`'s check. -/
theorem seqTrace_checks_le (l : List GateCall) (c : GateCall)
    (h : SeqTrace (l ++ [c])) : ∀ x ∈ l, x.appendTime ≤ c.checkTime := by
  induction l with
  | nil => intro x hx; simp at hx
  | cons a t ih =>
    intro x hx
    have htail : SeqTrace (t ++ [c]) := by
      constructor
      · intro y hy
        exact h.1 y (List.mem_cons_of_mem a hy)
      · exact h.2.tail
    rcases List.mem_cons.mp hx with rfl | hx'
    · cases t with
      | nil =>
        have := List.chain'_cons.mp h.2
        simpa using this.1
      | cons b t' =>
        have hab : x.appendTime ≤ b.checkTime := (List.chain'_cons.mp h.2).1
        have hbc : b.appendTime ≤ c.checkTime := ih htail b (List.mem_cons_self b t')
        have hbb : b.checkTime ≤ b.appendTime :=
          h.1 b (List.mem_cons_of_mem _ (List.mem_append_left [c] (List.mem_cons_self b t')))
        omega
    · exact ih htail x hx'

theorem length_filter_le_of_imp (l : List Int) (p q : Int → Bool)
    (h : ∀ t ∈ l, p t = true → q t = true) :
    (l.filter p).length ≤ (l.filter q).length := by
  induction l with
  | nil => simp
  | cons a t ih =>
    have ih' := ih (fun x hx => h x (List.mem_cons_of_mem a hx))
    have ha := h a (List.mem_cons_self a t)
    cases hpa : p a with
    | true =>
      have hqa : q a = true := ha hpa
      simp only [List.filter_cons, hpa, hqa, if_true, List.length_cons]
      omega
    | false =>
      cases hqa : q a with
      | true =>
        simp [List.filter_cons, hpa, hqa]
        omega
      | false =>
        simpa [List.filter_cons, hpa, hqa] using ih'

/-- The part of the gate state newer than `now - 1s` is exactly the
initial state's recent part followed by the admitted append times that are
still recent, for any `now` at or after every check of the run. -/
theorem gateRun_recent (R : Int) (c : Int) :
    ∀ (calls : List GateCall) (st stF : List Int),
      (∀ call ∈ calls, call.checkTime ≤ c) →
      gateRun R st calls = some stF →
      pruneRequests stF c =
        pruneRequests st c ++ pruneRequests (calls.map GateCall.appendTime) c := by
  intro calls
  induction calls with
  | nil =>
    intro st stF _ h
    have : st = stF := by
      simpa [gateRun] using h
    rw [← this]
    simp [pruneRequests]
  | cons a cs ih =>
    intro st stF hc hrun
    rcases hstep : gateStep R st a with _ | st'
    · simp only [gateRun, hstep] at hrun
      exact Option.noConfusion hrun
    · simp only [gateRun, hstep] at hrun
      have hst' : st' = pruneRequests st a.checkTime ++ [a.appendTime] := by
        simp only [gateStep, exceeded_rate_limit] at hstep
        split at hstep
        · simp at hstep
        · simpa using hstep.symm
      have hrec := ih st' stF (fun call hcall => hc call (List.mem_cons_of_mem a hcall)) hrun
      have hac : a.checkTime ≤ c := hc a (List.mem_cons_self a cs)
      have hpp : pruneRequests (pruneRequests st a.checkTime) c = pruneRequests st c := by
        unfold pruneRequests
        rw [List.filter_filter]
        apply List.filter_congr
        intro t _
        by_cases hct : c - oneSecond < t
        · have : a.checkTime - oneSecond < t := by
            unfold oneSecond at hct ⊢
            omega
          simp [hct, this]
        · simp [hct]
      rw [hrec, hst']
      unfold pruneRequests
      rw [List.filter_append]
      unfold pruneRequests at hpp
      rw [hpp]
      simp only [List.map_cons, List.filter_cons]
      by_cases hx : decide (c - oneSecond < a.appendTime) = true
      · simp [hx]
      · simp [hx]

/-- C2 counterexample.  The gate admits a request whenever the retained
count is at most `R` and only then appends the new timestamp, so `R + 1`
admissions fit in one rolling second: with `R = 3`, four back-to-back
calls (microsecond timestamps 0, 1, 2, 3) all pass the check, and the
window ending at `T = 3` contains 4 > 3 admissions. -/
theorem c2_counterexample :
    ¬ (∀ (R : Int) (calls : List GateCall) (stF : List Int) (T : Int),
        (R = 3 ∨ R = 10) → SeqTrace calls → gateRun R [] calls = some stF →
        (windowCount (calls.map GateCall.appendTime) T : Int) ≤ R) := by
  intro h
  have hx := h 3 [⟨0, 0⟩, ⟨1, 1⟩, ⟨2, 2⟩, ⟨3, 3⟩] [0, 1, 2, 3] 3
    (Or.inl rfl)
    ⟨by decide, List.Chain.cons (by decide) (List.Chain.cons (by decide) (List.Chain.cons (by decide) List.Chain.nil))⟩
    (by decide)
  exact absurd hx (by decide)

/-- C2 amended.  Under sequential load the gate guarantees at most
`R + 1` (not `R`) admissions in any rolling 1-second window, and this is
tight (see the counterexample): a request proceeds exactly when the
retained count after pruning does not exceed `R`, and its own timestamp is
appended only afterwards. -/
theorem c2_rate_gate_window_bound :
    (∀ (R : Int) (calls : List GateCall) (stF : List Int) (T : Int),
        0 ≤ R → SeqTrace calls → gateRun R [] calls = some stF →
        (windowCount (calls.map GateCall.appendTime) T : Int) ≤ R + 1) ∧
    (∀ (R : Int) (st : List Int) (c : GateCall) (st' : List Int),
        gateStep R st c = some st' →
        ((pruneRequests st c.checkTime).length : Int) ≤ R) := by
  constructor
  · intro R calls
    induction calls using List.reverseRecOn with
    | nil =>
      intro stF T hR _ _
      simp only [List.map_nil, windowCount, List.filter_nil, List.length_nil]
      omega
    | append_singleton l c ih =>
      intro stF T hR htrace hrun
      rw [gateRun_append] at hrun
      rcases hpre : gateRun R [] l with _ | st'
      · rw [hpre] at hrun; simp at hrun
      · rw [hpre] at hrun
        simp only [Option.some_bind] at hrun
        have htrace' : SeqTrace l := seqTrace_append_left l [c] htrace
        have ihl := ih st' T hR htrace' hpre
        have hsplit : windowCount ((l ++ [c]).map GateCall.appendTime) T =
            windowCount (l.map GateCall.appendTime) T +
              windowCount [c.appendTime] T := by
          unfold windowCount
          rw [List.map_append, List.filter_append, List.length_append]
          rfl
        by_cases hw : T - oneSecond < c.appendTime ∧ c.appendTime ≤ T
        · -- the final admission lands in the window: bound the rest by R
          have hcheck : ((pruneRequests st' c.checkTime).length : Int) ≤ R := by
            rcases hstep : gateStep R st' c with _ | st''
            · simp only [gateRun, hstep] at hrun
              exact Option.noConfusion hrun
            · simp only [gateStep, exceeded_rate_limit] at hstep
              split at hstep
              · simp at hstep
              · rename_i hex
                simp only [decide_eq_true_eq] at hex
                omega
          have hpfx := gateRun_recent R c.checkTime l [] st'
            (fun call hcall => by
              have h1 := seqTrace_checks_le l c htrace call hcall
              have h2 := htrace.1 call (List.mem_append_left [c] hcall)
              omega)
            hpre
          have hpfx' : pruneRequests st' c.checkTime =
              pruneRequests (l.map GateCall.appendTime) c.checkTime := by
            rw [hpfx]
            simp [pruneRequests]
          have hcT : c.checkTime ≤ T := by
            have := htrace.1 c (List.mem_append_right l (List.mem_singleton.mpr rfl))
            omega
          have hsub : windowCount (l.map GateCall.appendTime) T ≤
              (pruneRequests (l.map GateCall.appendTime) c.checkTime).length := by
            unfold windowCount pruneRequests
            apply length_filter_le_of_imp
            intro t _ hp
            simp only [decide_eq_true_eq] at hp ⊢
            omega
          have hone : windowCount [c.appendTime] T = 1 := by
            unfold windowCount
            simp [hw.1, hw.2]
          rw [hsplit, hone]
          rw [hpfx'] at hcheck
          omega
        · have hzero : windowCount [c.appendTime] T = 0 := by
            unfold windowCount
            rcases not_and_or.mp hw with hw' | hw' <;> simp [hw']
          rw [hsplit, hzero]
          omega
  · intro R st c st' h
    simp only [gateStep, exceeded_rate_limit] at h
    split at h
    · simp at h
    · rename_i hex
      simp only [decide_eq_true_eq] at hex
      omega

/-- Witness for C2's amended theorem on the four-call trace. -/
theorem c2_rate_gate_window_bound_witness :
    (windowCount (([⟨0, 0⟩, ⟨1, 1⟩, ⟨2, 2⟩, ⟨3, 3⟩] : List GateCall).map
        GateCall.appendTime) 3 : Int) ≤ 3 + 1 ∧
    ((pruneRequests [0] (2 : Int)).length : Int) ≤ 3 :=
  ⟨c2_rate_gate_window_bound.1 3 [⟨0, 0⟩, ⟨1, 1⟩, ⟨2, 2⟩, ⟨3, 3⟩] [0, 1, 2, 3] 3
      (by decide)
      ⟨by decide, List.Chain.cons (by decide) (List.Chain.cons (by decide) (List.Chain.cons (by decide) List.Chain.nil))⟩
      (by decide),
   c2_rate_gate_window_bound.2 3 [0] ⟨2, 2⟩ [0, 2] (by decide)⟩

/-! ## C5: the direct path of the resolver -/

/-- C5.  When the probe count is at most the service cap and `maxResults`
is bounded (non-negative, in particular not `-1`), `get_article_ids`
issues exactly 2 requests — the count-only probe with `retmax = 1` and one
paged fetch with `retmax = min(maxResults, 10000)` — and, assuming the
service returns `min(count, retmax)` identifiers, the returned list has
length `min(totalCount, maxResults)`. -/
theorem c5_direct_path (svc : Service) (fuel : Nat) (query : String) (max_results : Int)
    (start_year today : Int) (r1 r2 : EsearchResponse)
    (hmr : 0 ≤ max_results)
    (hprobe : svc (probeRequest query) = .ok r1)
    (hcap : r1.count ≤ max_retriveable_results)
    (hfetch : svc (Request.mk query (min max_results max_retriveable_results) none none) =
      .ok r2)
    (hlen : (r2.idlist.length : Int) =
      min r1.count (min max_results max_retriveable_results)) :
    get_article_ids svc fuel query max_results start_year today = .ok (r2.idlist, 2) ∧
      (r2.idlist.length : Int) = min r1.count max_results := by
  have hprobe' : get_total_results_count svc query = .ok r1.count := by
    unfold get_total_results_count pyGet
    rw [hprobe]
  have hne : ¬ max_results = -1 := by omega
  have hcap' : (0 : Int) ≤ max_retriveable_results := by unfold max_retriveable_results; omega
  constructor
  · simp only [get_article_ids, hprobe', hne, if_false, pyGet]
    rw [if_pos hcap]
    rcases lt_or_le max_results max_retriveable_results with hlt | hge
    · have hminr : min max_results max_retriveable_results = max_results := by omega
      rw [hminr] at hfetch
      simp [hlt, hfetch]
    · have hminr : min max_results max_retriveable_results = max_retriveable_results := by
        omega
      rw [hminr] at hfetch
      have hnlt : ¬ max_results < max_retriveable_results := by omega
      simp [hnlt, hfetch]
  · rw [hlen]
    omega

/-- The service of the spec's round-trip scenario: the probe reports a
count of 3, the paged fetch returns the 3 identifiers. -/
def svcRoundTrip : Service := fun req =>
  if req.retmax = 1 then .ok ⟨3, ["a"]⟩ else .ok ⟨3, ["a", "b", "c"]⟩

/-- Witness for C5 on the round-trip scenario
(`resolve("test[Title]", maxResults = 3)`). -/
theorem c5_direct_path_witness :
    get_article_ids svcRoundTrip 5 "test[Title]" 3 1900 0 = .ok (["a", "b", "c"], 2) ∧
      ((["a", "b", "c"] : List String).length : Int) = min 3 3 :=
  c5_direct_path svcRoundTrip 5 "test[Title]" 3 1900 0 ⟨3, ["a"]⟩ ⟨3, ["a", "b", "c"]⟩
    (by decide) (by decide) (by decide) (by decide) (by decide)

/-! ## Structural lemmas for the bin-processing loop -/

/-- Processing a concatenation of bin lists is processing the first part,
then the second from the resulting parameter state, concatenating
identifier lists and summing request counts in order. -/
theorem processBinsAux_append (svc : Service)
    (recSub : Int → Int → Request → Int → Except PyErr (List String × Nat × Request))
    (l1 l2 : List (DateStr × DateStr)) (mr : Int) :
    ∀ p : Request,
      processBinsAux svc recSub (l1 ++ l2) p mr =
        match processBinsAux svc recSub l1 p mr with
        | .error e => .error e
        | .ok (ids1, n1, p1) =>
          match processBinsAux svc recSub l2 p1 mr with
          | .error e => .error e
          | .ok (ids2, n2, p2) => .ok (ids1 ++ ids2, n1 + n2, p2) := by
  induction l1 with
  | nil =>
    intro p
    cases h : processBinsAux svc recSub l2 p mr with
    | error e => simp [processBinsAux, h]
    | ok v =>
      rcases v with ⟨ids2, n2, p2⟩
      simp [processBinsAux, h]
  | cons b t ih =>
    intro p
    cases hg : pyGet svc (binRequest p b mr) with
    | error e => simp [processBinsAux, hg]
    | ok response =>
      by_cases hcnt : max_retriveable_results < response.count
      · cases hs1 : strptime b.1 with
        | error msg => simp [processBinsAux, hg, hcnt, hs1]
        | ok la =>
          cases hs2 : strptime b.2 with
          | error msg => simp [processBinsAux, hg, hcnt, hs1, hs2]
          | ok lb =>
            cases hr : recSub la lb (binRequest p b mr) mr with
            | error e => simp [processBinsAux, hg, hcnt, hs1, hs2, hr]
            | ok v =>
              rcases v with ⟨subIds, n2, p3⟩
              simp only [List.cons_append, processBinsAux, hg, hcnt, if_true, hs1, hs2, hr]
              simp only [List.append_eq]
              rw [ih p3]
              cases ht : processBinsAux svc recSub t p3 mr with
              | error e => rfl
              | ok v =>
                rcases v with ⟨restIds, n3, p4⟩
                dsimp only
                cases hl2 : processBinsAux svc recSub l2 p4 mr with
                | error e => rfl
                | ok v =>
                  rcases v with ⟨ids2, n4, p5⟩
                  dsimp only
                  simp only [Except.ok.injEq, Prod.mk.injEq]
                  refine ⟨by simp [List.append_assoc], by omega, trivial⟩
      · simp only [List.cons_append, processBinsAux, hg, hcnt, if_false]
        simp only [List.append_eq]
        rw [ih (binRequest p b mr)]
        cases ht : processBinsAux svc recSub t (binRequest p b mr) mr with
        | error e => rfl
        | ok v =>
          rcases v with ⟨restIds, n3, p4⟩
          dsimp only
          cases hl2 : processBinsAux svc recSub l2 p4 mr with
          | error e => rfl
          | ok v =>
            rcases v with ⟨ids2, n4, p5⟩
            dsimp only
            simp only [Except.ok.injEq, Prod.mk.injEq]
            refine ⟨by simp [List.append_assoc], by omega, trivial⟩

/-! ## C8: transport failures abort the whole resolve call -/

/-- C8.  A `TransportError` from any nested request aborts the whole
`get_article_ids` call with that error and no partial identifier list:
(1) a failing probe aborts; (2) a failing direct fetch aborts; (3) a
failing bin request aborts even after earlier sibling bins succeeded,
discarding their accumulated identifiers; (4) an error surfacing from the
recursive descent into an over-cap bin likewise aborts, discarding the
identifiers of already-processed siblings. -/
theorem c8_transport_abort :
    (∀ (svc : Service) (fuel : Nat) (q : String) (mr sy today : Int) (msg : String),
        svc (probeRequest q) = .error msg →
        get_article_ids svc fuel q mr sy today = .error (.transport msg)) ∧
    (∀ (svc : Service) (fuel : Nat) (q : String) (mr sy today : Int) (msg : String)
        (r1 : EsearchResponse),
        svc (probeRequest q) = .ok r1 → r1.count ≤ max_retriveable_results → 0 ≤ mr →
        svc (Request.mk q (min mr max_retriveable_results) none none) = .error msg →
        get_article_ids svc fuel q mr sy today = .error (.transport msg)) ∧
    (∀ (svc : Service) (f : Nat) (l1 : List (DateStr × DateStr)) (b : DateStr × DateStr)
        (l2 : List (DateStr × DateStr)) (p : Request) (mr : Int) (ids1 : List String)
        (n1 : Nat) (p1 : Request) (msg : String),
        processBins svc f l1 p mr = .ok (ids1, n1, p1) →
        svc (binRequest p1 b mr) = .error msg →
        processBins svc f (l1 ++ b :: l2) p mr = .error (.transport msg)) ∧
    (∀ (svc : Service) (f : Nat) (l1 : List (DateStr × DateStr)) (b : DateStr × DateStr)
        (l2 : List (DateStr × DateStr)) (p : Request) (mr : Int) (ids1 : List String)
        (n1 : Nat) (p1 : Request) (e : PyErr) (resp : EsearchResponse) (la lb : Int),
        processBins svc f l1 p mr = .ok (ids1, n1, p1) →
        svc (binRequest p1 b mr) = .ok resp →
        max_retriveable_results < resp.count →
        strptime b.1 = .ok la → strptime b.2 = .ok lb →
        recurse_bin_processing svc f la lb (binRequest p1 b mr) mr = .error e →
        processBins svc f (l1 ++ b :: l2) p mr = .error e) := by
  refine ⟨?_, ?_, ?_, ?_⟩
  · intro svc fuel q mr sy today msg h
    simp only [get_article_ids, get_total_results_count, pyGet, h]
  · intro svc fuel q mr sy today msg r1 hprobe hcap hmr hfetch
    have hprobe' : get_total_results_count svc q = .ok r1.count := by
      unfold get_total_results_count pyGet
      rw [hprobe]
    have hne : ¬ mr = -1 := by omega
    simp only [get_article_ids, hprobe', hne, if_false, pyGet]
    rw [if_pos hcap]
    rcases lt_or_le mr max_retriveable_results with hlt | hge
    · have hminr : min mr max_retriveable_results = mr := by omega
      rw [hminr] at hfetch
      simp [hlt, hfetch]
    · have hminr : min mr max_retriveable_results = max_retriveable_results := by omega
      rw [hminr] at hfetch
      have hnlt : ¬ mr < max_retriveable_results := by omega
      simp [hnlt, hfetch]
  · intro svc f l1 b l2 p mr ids1 n1 p1 msg h1 h2
    have hbin : processBinsAux svc (recurse_bin_processing svc f) (b :: l2) p1 mr =
        .error (.transport msg) := by
      simp [processBinsAux, pyGet, h2]
    simp only [processBins] at h1 ⊢
    rw [processBinsAux_append svc _ l1 (b :: l2) mr p, h1]
    dsimp only
    rw [hbin]
  · intro svc f l1 b l2 p mr ids1 n1 p1 e resp la lb h1 hg hcnt hs1 hs2 hr
    have hbin : processBinsAux svc (recurse_bin_processing svc f) (b :: l2) p1 mr =
        .error e := by
      simp [processBinsAux, pyGet, hg, hcnt, hs1, hs2, hr]
    simp only [processBins] at h1 ⊢
    rw [processBinsAux_append svc _ l1 (b :: l2) mr p, h1]
    dsimp only
    rw [hbin]

/-- A service whose every request fails at the transport layer. -/
def svcAllFail : Service := fun _ => .error "ConnectionError"

/-- Witness for C8: with a failing probe, `get_article_ids` aborts with
the transport error. -/
theorem c8_transport_abort_witness :
    get_article_ids svcAllFail 5 "q" 3 1900 0 = .error (.transport "ConnectionError") :=
  c8_transport_abort.1 svcAllFail 5 "q" 3 1900 0 "ConnectionError" (by decide)

/-! ## C6: termination of the bin recursion and the over-cap leaf -/

/-- Rank of a range: an upper bound on the remaining recursion depth of
`recurse_bin_processing`, strictly decreasing along every recursive call. -/
def binRank (s e : Int) : Nat :=
  if e < s then 1
  else if e - s ≤ 1 then 2
  else if e - s ≤ 7 then 3
  else if e - s ≤ 31 then 4
  else if e - s ≤ 366 then 5
  else 6

theorem strptime_ok {s : DateStr} {z : Int} (h : strptime s = .ok z) : z = ordOf s := by
  unfold strptime at h
  split at h
  · exact (Except.ok.inj h).symm
  · exact absurd h (by simp)

/-- For spans of at most one day the binning is the single leaf bin. -/
theorem make_date_bins_leaf (s e : Int) (h1 : s ≤ e) (h2 : e - s ≤ 1) :
    make_date_bins s e = .ok [((dateYear e, dateMonth e, dateDay e),
      (dateYear e, dateMonth e, dateDay e - 1))] := by
  unfold make_date_bins
  rw [if_neg (by omega : ¬ s > e), if_neg (by omega : ¬ e - s > 366),
    if_neg (by omega : ¬ e - s > 31), if_neg (by omega : ¬ e - s > 7),
    if_neg (by omega : ¬ e - s > 1)]

/-- Parsing the bounds of any produced bin yields a strictly smaller rank:
a stepping-tier bin spans exactly its tier's step, and the leaf bin parses
to an inverted (rank-1) range. -/
theorem make_date_bins_bin_rank (s e : Int) (bins : List (DateStr × DateStr))
    (hok : make_date_bins s e = .ok bins) :
    ∀ b ∈ bins, ∀ la lb, strptime b.1 = .ok la → strptime b.2 = .ok lb →
      binRank la lb < binRank s e := by
  have hse : s ≤ e := by
    by_contra hc
    unfold make_date_bins at hok
    rw [if_pos (by omega : s > e)] at hok
    exact absurd hok (by simp)
  intro b hb la lb hla hlb
  rcases make_date_bins_cases s e hse with ⟨bins', hok', hcase⟩
  rw [hok] at hok'
  cases hok'
  rcases hcase with ⟨hspan, hstep⟩ | ⟨hspan, hleaf⟩
  · rcases hstep b hb with ⟨i, step, hs, hi, hts, rfl⟩
    have hla' : la = e - i := by
      rw [strptime_ok hla]
      show ordOf (serviceDateFormat (e - i)) = e - i
      exact ordOf_strftime (e - i)
    have hlb' : lb = e - (i - step) := by
      rw [strptime_ok hlb]
      show ordOf (serviceDateFormat (e - (i - step))) = e - (i - step)
      exact ordOf_strftime (e - (i - step))
    subst hla' hlb'
    unfold tierStep at hts
    unfold binRank
    split_ifs at hts ⊢ <;> omega
  · rw [hleaf] at hb
    rcases List.mem_singleton.mp hb with rfl
    have hla' : la = e := by
      rw [strptime_ok hla]
      exact ordOf_fields e
    have hlb' : lb = e - 1 := by
      rw [strptime_ok hlb]
      show toOrdinal (dateYear e) (dateMonth e) (dateDay e - 1) = e - 1
      rw [toOrdinal_day_pred, ordOf_fields]
    rw [hla', hlb']
    have hr1 : binRank e (e - 1) = 1 := by
      unfold binRank
      rw [if_pos (by omega : e - 1 < e)]
    have hr2 : binRank s e = 2 := by
      unfold binRank
      rw [if_neg (by omega : ¬ e < s), if_pos hspan]
    rw [hr1, hr2]
    omega

/-- The bin loop never exhausts the fuel, provided every bin's parsed
range fits in the remaining fuel for the sub-recursion. -/
theorem processBinsAux_no_fuel (svc : Service) (f : Nat)
    (hrec : ∀ (la lb : Int) (p : Request) (mr : Int), binRank la lb ≤ f →
      recurse_bin_processing svc f la lb p mr ≠ .error .fuelExhausted) :
    ∀ (bins : List (DateStr × DateStr)) (p : Request) (mr : Int),
      (∀ b ∈ bins, ∀ la lb, strptime b.1 = .ok la → strptime b.2 = .ok lb →
        binRank la lb ≤ f) →
      processBinsAux svc (recurse_bin_processing svc f) bins p mr ≠
        .error .fuelExhausted := by
  intro bins
  induction bins with
  | nil =>
    intro p mr _
    show (Except.ok (([] : List String), 0, p) : Except PyErr (List String × Nat × Request)) ≠
      .error .fuelExhausted
    simp
  | cons b t ihb =>
    intro p mr hbins
    have hbt : ∀ b' ∈ t, ∀ la lb, strptime b'.1 = .ok la → strptime b'.2 = .ok lb →
        binRank la lb ≤ f :=
      fun b' hb' => hbins b' (List.mem_cons_of_mem b hb')
    cases hsvc : svc (binRequest p b mr) with
    | error m => simp [processBinsAux, pyGet, hsvc]
    | ok resp =>
      by_cases hcnt : max_retriveable_results < resp.count
      · cases hs1 : strptime b.1 with
        | error msg => simp [processBinsAux, pyGet, hsvc, hcnt, hs1]
        | ok la =>
          cases hs2 : strptime b.2 with
          | error msg => simp [processBinsAux, pyGet, hsvc, hcnt, hs1, hs2]
          | ok lb =>
            have hrk := hbins b (List.mem_cons_self b t) la lb hs1 hs2
            have hne := hrec la lb (binRequest p b mr) mr hrk
            cases hr : recurse_bin_processing svc f la lb (binRequest p b mr) mr with
            | error e =>
              have he : e ≠ .fuelExhausted := by
                intro hc
                rw [hc] at hr
                exact hne hr
              simp only [processBinsAux, pyGet, hsvc, hcnt, if_true, hs1, hs2, hr]
              simp [he]
            | ok v =>
              rcases v with ⟨subIds, n2, p3⟩
              simp only [processBinsAux, pyGet, hsvc, hcnt, if_true, hs1, hs2, hr]
              have hih := ihb p3 mr hbt
              cases ht : processBinsAux svc (recurse_bin_processing svc f) t p3 mr with
              | error e2 =>
                have he2 : e2 ≠ .fuelExhausted := by
                  intro hc
                  rw [hc] at ht
                  exact hih ht
                simp [he2]
              | ok w =>
                rcases w with ⟨restIds, n3, p4⟩
                simp
      · simp only [processBinsAux, pyGet, hsvc, hcnt, if_false]
        have hih := ihb (binRequest p b mr) mr hbt
        cases ht : processBinsAux svc (recurse_bin_processing svc f) t
            (binRequest p b mr) mr with
        | error e2 =>
          have he2 : e2 ≠ .fuelExhausted := by
            intro hc
            rw [hc] at ht
            exact hih ht
          simp [he2]
        | ok w =>
          rcases w with ⟨restIds, n3, p4⟩
          simp

/-- The recursion never exhausts fuel at least its rank (which is at most
6): every recursive call strictly decreases the rank. -/
theorem recurse_no_fuel_error :
    ∀ (fuel : Nat) (svc : Service) (s e : Int) (p : Request) (mr : Int),
      binRank s e ≤ fuel →
      recurse_bin_processing svc fuel s e p mr ≠ .error .fuelExhausted := by
  intro fuel
  induction fuel using Nat.strong_induction_on with
  | _ fuel ih =>
    intro svc s e p mr hrank
    cases fuel with
    | zero =>
      have h1 : 1 ≤ binRank s e := by
        unfold binRank
        split_ifs <;> omega
      omega
    | succ f =>
      cases hmk : make_date_bins s e with
      | error msg => simp [recurse_bin_processing, hmk]
      | ok bins =>
        simp only [recurse_bin_processing, hmk]
        apply processBinsAux_no_fuel svc f
        · intro la lb p' mr' hrk'
          exact ih f (Nat.lt_succ_self f) svc la lb p' mr' hrk'
        · intro b hb la lb hla hlb
          have := make_date_bins_bin_rank s e bins hmk b hb la lb hla hlb
          omega

/-- A service whose every response reports an over-cap count. -/
def svcOverCap : Service := fun _ => .ok ⟨20000, ["x"]⟩

/-- C6 counterexample.  The claim reads: the one-day bin is always a leaf
— no further subdivision and no error below one-day granularity, even when
its count still exceeds the cap.  But on a one-day range whose single bin
reports 20000 results, `recurse_bin_processing` recurses into the leaf bin
`(end, end - 1 day)`, whose inverted bounds make the nested
`make_date_bins` raise the invalid-range `ValueError`. -/
theorem c6_counterexample :
    ¬ (∀ (svc : Service) (fuel : Nat) (s e : Int) (p : Request) (mr : Int),
        (∀ req, ∃ r, svc req = .ok r) → s ≤ e → e - s ≤ 1 → 6 ≤ fuel →
        ∃ v, recurse_bin_processing svc fuel s e p mr = .ok v) := by
  intro h
  rcases h svcOverCap 6 (toOrdinal 2024 6 15) (toOrdinal 2024 6 15)
      (Request.mk "q" 10000 none none) 20000 (fun _ => ⟨⟨20000, ["x"]⟩, rfl⟩)
      (le_refl _) (by omega) (by omega) with ⟨v, hv⟩
  have hx : recurse_bin_processing svcOverCap 6 (toOrdinal 2024 6 15) (toOrdinal 2024 6 15)
      (Request.mk "q" 10000 none none) 20000 =
      .error (.valueError "ValueError: Start date must be before end date.") := by decide
  rw [hx] at hv
  cases hv

/-- C6 amended.  The recursion always terminates — every recursive call
strictly shrinks the date span (its rank), so fuel 6 (the maximal rank) is
never exhausted — but a one-day bin whose count still exceeds the cap is
NOT treated as a leaf: the code recurses into the bin `(end, end − 1 day)`
whose bounds are inverted, and that nested call fails with the
invalid-range `ValueError` (or an invalid-date `ValueError` when the day
field underflows to 0), instead of silently dropping the excess. -/
theorem c6_recursion_terminates_leaf_errors :
    (∀ (svc : Service) (fuel : Nat) (s e : Int) (p : Request) (mr : Int),
        6 ≤ fuel →
        recurse_bin_processing svc fuel s e p mr ≠ .error .fuelExhausted) ∧
    (∀ (svc : Service) (fuel : Nat) (s e : Int) (p : Request) (mr : Int)
        (resp : EsearchResponse),
        2 ≤ fuel → s ≤ e → e - s ≤ 1 →
        svc (binRequest p ((dateYear e, dateMonth e, dateDay e),
          (dateYear e, dateMonth e, dateDay e - 1)) mr) = .ok resp →
        max_retriveable_results < resp.count →
        ∃ m, recurse_bin_processing svc fuel s e p mr = .error (.valueError m)) := by
  constructor
  · intro svc fuel s e p mr hfuel
    apply recurse_no_fuel_error
    have : binRank s e ≤ 6 := by
      unfold binRank
      split_ifs <;> omega
    omega
  · intro svc fuel s e p mr resp hfuel hse hspan hsvc hcnt
    rcases fuel with _ | f
    · omega
    have hmk := make_date_bins_leaf s e hse hspan
    simp only [recurse_bin_processing, hmk]
    by_cases hv1 : validDate (dateYear e, dateMonth e, dateDay e)
    · by_cases hv2 : validDate (dateYear e, dateMonth e, dateDay e - 1)
      · have hs1 : strptime ((dateYear e, dateMonth e, dateDay e) : DateStr) =
            .ok e := by
          unfold strptime
          rw [if_pos hv1]
          exact congrArg Except.ok (ordOf_fields e)
        have hs2 : strptime ((dateYear e, dateMonth e, dateDay e - 1) : DateStr) =
            .ok (e - 1) := by
          unfold strptime
          rw [if_pos hv2]
          refine congrArg Except.ok ?_
          show toOrdinal (dateYear e) (dateMonth e) (dateDay e - 1) = e - 1
          rw [toOrdinal_day_pred, ordOf_fields]
        have hsub : recurse_bin_processing svc f e (e - 1)
            (binRequest p ((dateYear e, dateMonth e, dateDay e),
              (dateYear e, dateMonth e, dateDay e - 1)) mr) mr =
            .error (.valueError "ValueError: Start date must be before end date.") := by
          rcases f with _ | f'
          · omega
          · have hbad : make_date_bins e (e - 1) =
                .error "ValueError: Start date must be before end date." := by
              unfold make_date_bins
              rw [if_pos (by omega : e > e - 1)]
            simp [recurse_bin_processing, hbad]
        refine ⟨"ValueError: Start date must be before end date.", ?_⟩
        simp [processBinsAux, pyGet, hsvc, hcnt, hs1, hs2, hsub]
      · have hs2 : strptime ((dateYear e, dateMonth e, dateDay e - 1) : DateStr) =
            .error "ValueError: invalid date string" := by
          unfold strptime
          rw [if_neg hv2]
        have hs1 : strptime ((dateYear e, dateMonth e, dateDay e) : DateStr) =
            .ok e := by
          unfold strptime
          rw [if_pos hv1]
          exact congrArg Except.ok (ordOf_fields e)
        refine ⟨"ValueError: invalid date string", ?_⟩
        simp [processBinsAux, pyGet, hsvc, hcnt, hs1, hs2]
    · have hs1 : strptime ((dateYear e, dateMonth e, dateDay e) : DateStr) =
          .error "ValueError: invalid date string" := by
        unfold strptime
        rw [if_neg hv1]
      refine ⟨"ValueError: invalid date string", ?_⟩
      simp [processBinsAux, pyGet, hsvc, hcnt, hs1]

/-- Witness for C6's amended theorem: the no-fuel-exhaustion bound on a
concrete call, and the over-cap one-day range erroring concretely. -/
theorem c6_recursion_terminates_leaf_errors_witness :
    recurse_bin_processing svcOverCap 6 (toOrdinal 2024 6 15) (toOrdinal 2024 6 15)
      (Request.mk "q" 10000 none none) 20000 ≠ .error .fuelExhausted ∧
    ∃ m, recurse_bin_processing svcOverCap 6 (toOrdinal 2024 6 15) (toOrdinal 2024 6 15)
      (Request.mk "q" 10000 none none) 20000 = .error (.valueError m) :=
  ⟨c6_recursion_terminates_leaf_errors.1 svcOverCap 6 (toOrdinal 2024 6 15)
      (toOrdinal 2024 6 15) (Request.mk "q" 10000 none none) 20000 (by omega),
   c6_recursion_terminates_leaf_errors.2 svcOverCap 6 (toOrdinal 2024 6 15)
      (toOrdinal 2024 6 15) (Request.mk "q" 10000 none none) 20000 ⟨20000, ["x"]⟩
      (by omega) (le_refl _) (by omega) (by decide) (by decide)⟩

/-! ## C1: the partition path of the resolver -/

/-- The effective maximum after the `-1` (unbounded) substitution. -/
def resolvedMax (max_results total_result_count : Int) : Int :=
  if max_results = -1 then total_result_count else max_results

/-- The parameter dict `get_article_ids` hands to the bin recursion:
`retmax` starts at the cap and is clamped to the effective maximum. -/
def initParams (query : String) (max_results : Int) : Request :=
  let parameters : Request := Request.mk query max_retriveable_results none none
  if max_results < parameters.retmax then { parameters with retmax := max_results }
  else parameters

/-- A service that always reports 25000 matches and returns no ids. -/
def svcConstCount : Service := fun _ => .ok ⟨25000, []⟩

/-- C1 counterexample.  The claim reads: an over-cap probe count forces
more than 2 requests.  But with `startYear = 2025` and today 2026-01-15
(a 379-day span crossing one calendar year boundary), `make_date_bins`
returns no bins at all, so `get_article_ids` issues exactly 1 request (the
probe) and silently returns the empty identifier list. -/
theorem c1_counterexample :
    ¬ (∀ (svc : Service) (fuel : Nat) (q : String) (mr sy today : Int)
        (r : EsearchResponse) (ids : List String) (n : Nat),
        svc (probeRequest q) = .ok r → max_retriveable_results < r.count →
        get_article_ids svc fuel q mr sy today = .ok (ids, n) → 2 < n) := by
  intro h
  have hx := h svcConstCount 10 "q" (-1) 2025 (toOrdinal 2026 1 15) ⟨25000, []⟩ [] 1
    (by decide) (by decide) (by decide)
  omega

/-- C1 amended.  With an over-cap probe count, `get_article_ids`
(1) delegates to the bin recursion over `make_date_bins(startYear-01-01,
today)` and returns its identifier list with `1 + (bin-loop requests)`
requests; (2) the bin loop processes the bins strictly in order, each
bin's sub-resolution (its own request plus, for an over-cap bin, its
recursive descent) contributing its identifiers by concatenation; (3) a
successful bin loop issues at least one request per bin; hence (4) the
call issues more than 2 requests whenever at least 2 bins are produced —
but not in general: the binning can be empty (see the counterexample), in
which case a single request is issued. -/
theorem c1_partition_path :
    (∀ (svc : Service) (f : Nat) (q : String) (mr sy today : Int)
        (r : EsearchResponse) (bins : List (DateStr × DateStr)),
        svc (probeRequest q) = .ok r → max_retriveable_results < r.count →
        make_date_bins (toOrdinal sy 1 1) today = .ok bins →
        get_article_ids svc (Nat.succ f) q mr sy today =
          match processBins svc f bins (initParams q (resolvedMax mr r.count))
              (resolvedMax mr r.count) with
          | .error e => .error e
          | .ok (ids, n, _) => .ok (ids, 1 + n)) ∧
    (∀ (svc : Service) (f : Nat) (b : DateStr × DateStr)
        (rest : List (DateStr × DateStr)) (p : Request) (mr : Int),
        processBins svc f (b :: rest) p mr =
          match processOneBin svc f b p mr with
          | .error e => .error e
          | .ok (ids1, n1, p1) =>
            match processBins svc f rest p1 mr with
            | .error e => .error e
            | .ok (ids2, n2, p2) => .ok (ids1 ++ ids2, n1 + n2, p2)) ∧
    (∀ (svc : Service) (f : Nat) (bins : List (DateStr × DateStr)) (p : Request)
        (mr : Int) (ids : List String) (n : Nat) (p' : Request),
        processBins svc f bins p mr = .ok (ids, n, p') → bins.length ≤ n) ∧
    (∀ (svc : Service) (f : Nat) (q : String) (mr sy today : Int)
        (r : EsearchResponse) (bins : List (DateStr × DateStr)) (ids : List String)
        (n : Nat),
        svc (probeRequest q) = .ok r → max_retriveable_results < r.count →
        make_date_bins (toOrdinal sy 1 1) today = .ok bins → 2 ≤ bins.length →
        get_article_ids svc (Nat.succ f) q mr sy today = .ok (ids, n) → 2 < n) := by
  have hdeleg : ∀ (svc : Service) (f : Nat) (q : String) (mr sy today : Int)
      (r : EsearchResponse) (bins : List (DateStr × DateStr)),
      svc (probeRequest q) = .ok r → max_retriveable_results < r.count →
      make_date_bins (toOrdinal sy 1 1) today = .ok bins →
      get_article_ids svc (Nat.succ f) q mr sy today =
        match processBins svc f bins (initParams q (resolvedMax mr r.count))
            (resolvedMax mr r.count) with
        | .error e => .error e
        | .ok (ids, n, _) => .ok (ids, 1 + n) := by
    intro svc f q mr sy today r bins hprobe hcnt hbins
    have hprobe' : get_total_results_count svc q = .ok r.count := by
      unfold get_total_results_count pyGet
      rw [hprobe]
    simp only [get_article_ids, hprobe', resolvedMax, initParams, processBins]
    rw [if_neg (by omega : ¬ r.count ≤ max_retriveable_results)]
    simp only [recurse_bin_processing, hbins]
  have hcount : ∀ (svc : Service) (f : Nat) (bins : List (DateStr × DateStr))
      (p : Request) (mr : Int) (ids : List String) (n : Nat) (p' : Request),
      processBins svc f bins p mr = .ok (ids, n, p') → bins.length ≤ n := by
    intro svc f bins
    induction bins with
    | nil =>
      intro p mr ids n p' h
      simp [List.length_nil]
    | cons b t ihb =>
      intro p mr ids n p' h
      simp only [processBins, processBinsAux] at h
      cases hsvc : svc (binRequest p b mr) with
      | error m => simp [pyGet, hsvc] at h
      | ok resp =>
        by_cases hcnt : max_retriveable_results < resp.count
        · cases hs1 : strptime b.1 with
          | error msg => simp [pyGet, hsvc, hcnt, hs1] at h
          | ok la =>
            cases hs2 : strptime b.2 with
            | error msg => simp [pyGet, hsvc, hcnt, hs1, hs2] at h
            | ok lb =>
              cases hr : recurse_bin_processing svc f la lb (binRequest p b mr) mr with
              | error e => simp [pyGet, hsvc, hcnt, hs1, hs2, hr] at h
              | ok v =>
                rcases v with ⟨subIds, n2, p3⟩
                cases ht : processBinsAux svc (recurse_bin_processing svc f) t p3 mr with
                | error e => simp [pyGet, hsvc, hcnt, hs1, hs2, hr, ht] at h
                | ok w =>
                  rcases w with ⟨restIds, n3, p4⟩
                  simp only [pyGet, hsvc, hcnt, if_true, hs1, hs2, hr, ht,
                    Except.ok.injEq, Prod.mk.injEq] at h
                  have := ihb p3 mr restIds n3 p4 (by simp [processBins, ht])
                  simp only [List.length_cons]
                  omega
        · cases ht : processBinsAux svc (recurse_bin_processing svc f) t
              (binRequest p b mr) mr with
          | error e => simp [pyGet, hsvc, hcnt, ht] at h
          | ok w =>
            rcases w with ⟨restIds, n3, p4⟩
            simp only [pyGet, hsvc, hcnt, if_false, ht,
              Except.ok.injEq, Prod.mk.injEq] at h
            have := ihb (binRequest p b mr) mr restIds n3 p4 (by simp [processBins, ht])
            simp only [List.length_cons]
            omega
  refine ⟨hdeleg, ?_, hcount, ?_⟩
  · intro svc f b rest p mr
    have := processBinsAux_append svc (recurse_bin_processing svc f) [b] rest mr p
    rw [List.singleton_append] at this
    simp only [processBins, processOneBin]
    exact this
  · intro svc f q mr sy today r bins ids n hprobe hcnt hbins hlen hok
    rw [hdeleg svc f q mr sy today r bins hprobe hcnt hbins] at hok
    cases hpb : processBins svc f bins (initParams q (resolvedMax mr r.count))
        (resolvedMax mr r.count) with
    | error e => rw [hpb] at hok; exact absurd hok (by simp)
    | ok v =>
      rcases v with ⟨ids', n', p'⟩
      rw [hpb] at hok
      have hn : n = 1 + n' := by
        simp only [Except.ok.injEq, Prod.mk.injEq] at hok
        omega
      have := hcount svc f bins _ _ ids' n' p' hpb
      omega

/-- A service whose probe reports 25000 matches but whose date-scoped bin
requests each report 5 matches with one identifier. -/
def svcBinFits : Service := fun req =>
  if req.mindate = none then .ok ⟨25000, []⟩ else .ok ⟨5, ["x"]⟩

/-- Witness for C1's amended theorem: over a five-day range the call
delegates to the bin loop over the five produced one-day bins. -/
theorem c1_partition_path_witness :
    get_article_ids svcBinFits 6 "q" (-1) 2024 (toOrdinal 2024 1 6) =
      match processBins svcBinFits 5
          [(((2024 : Int), (1 : Int), (4 : Int)), ((2024 : Int), (1 : Int), (5 : Int))),
           (((2024 : Int), (1 : Int), (3 : Int)), ((2024 : Int), (1 : Int), (4 : Int))),
           (((2024 : Int), (1 : Int), (2 : Int)), ((2024 : Int), (1 : Int), (3 : Int))),
           (((2024 : Int), (1 : Int), (1 : Int)), ((2024 : Int), (1 : Int), (2 : Int))),
           (((2023 : Int), (12 : Int), (31 : Int)), ((2024 : Int), (1 : Int), (1 : Int)))]
          (initParams "q" (resolvedMax (-1) 25000)) (resolvedMax (-1) 25000) with
      | .error e => .error e
      | .ok (ids, n, _) => .ok (ids, 1 + n) :=
  c1_partition_path.1 svcBinFits 5 "q" (-1) 2024 (toOrdinal 2024 1 6) ⟨25000, []⟩
    [((2024, 1, 4), (2024, 1, 5)), ((2024, 1, 3), (2024, 1, 4)),
     ((2024, 1, 2), (2024, 1, 3)), ((2024, 1, 1), (2024, 1, 2)),
     ((2023, 12, 31), (2024, 1, 1))]
    (by decide) (by decide) (by decide)
